import Mathlib

/-!
Verification development for the treeano core graph-build and hyperparameter
resolution engine (`treeano/core/network.py`).

Python dicts are embedded as association lists (`AList`) with first-match
lookup; insertion of a fresh key appends, and overwriting replaces the first
binding in place, matching insertion-ordered dict semantics.  Hyperparameter
values are embedded as `Nat`; variable objects as `NodeVar` records carrying
their composite name and a payload giving them distinguishable identity.
-/

set_option autoImplicit false

namespace Treeano

/-- Association list keyed by strings, modelling a Python dict. -/
abbrev AList (V : Type) := List (String × V)

/-- Dict write `d[k] = v`: replace the first binding of `k` in place if
present, otherwise append (insertion-ordered dict semantics). -/
def setk {V : Type} : AList V → String → V → AList V
  | [], k, v => [(k, v)]
  | (k0, v0) :: rest, k, v =>
    if k0 = k then (k, v) :: rest else (k0, v0) :: setk rest k v

/-- A node as seen by hyperparameter resolution: its unique name and the
values its `get_hyperparameter` hook provides (a key absent from `selfHps`
means the hook raises `MissingHyperparameter`, i.e. yields nothing). -/
structure HNode where
  name : String
  selfHps : AList Nat
  deriving Repr, DecidableEq

/-- `VariableWrapper` abstraction: the composite variable name built by
`create_variable` plus a payload standing for the wrapper's other contents,
so distinct variable objects are distinguishable. -/
structure NodeVar where
  name : String
  payload : Nat
  deriving Repr, DecidableEq

/-- Per-node record in `Network.node_state`, created empty during `build()`:
`current_variables`, `original_variables`, `additional_data`,
`set_hyperparameters` (target node name → key → value). -/
structure NodeState where
  current_variables : AList NodeVar
  original_variables : AList NodeVar
  additional_data : AList Nat
  set_hyperparameters : AList (AList Nat)
  deriving Repr, DecidableEq

/-- The empty node state allocated for every node at the start of `build()`. -/
def emptyNodeState : NodeState :=
  { current_variables := []
    original_variables := []
    additional_data := []
    set_hyperparameters := [] }

/-- The hyperparameter-relevant state of a `Network`: the override map, the
global default map, and per-node `set_hyperparameters` state. -/
structure HNetwork where
  override_hyperparameters : AList Nat
  default_hyperparameters : AList Nat
  node_state : AList NodeState
  deriving Repr, DecidableEq

/-- `self.node_state[node.name]["set_hyperparameters"]` for a chain node. -/
def setHpsOf (net : HNetwork) (nodeName : String) : AList (AList Nat) :=
  ((net.node_state.lookup nodeName).map NodeState.set_hyperparameters).getD []

/-- Override tier of `find_hyperparameters`: the override-map values
yielded while scanning the candidate keys in order. -/
def overrideTier (net : HNetwork) (keys : List String) : List Nat :=
  keys.filterMap (fun k => net.override_hyperparameters.lookup k)

/-- Global default tier of `find_hyperparameters`: the default-map values
yielded while scanning the candidate keys in order. -/
def globalDefaultTier (net : HNetwork) (keys : List String) : List Nat :=
  keys.filterMap (fun k => net.default_hyperparameters.lookup k)

/-- Values yielded for one candidate key while processing one chain node `A`:
first the values `A` has pushed (via `set_hyperparameters`) for each
already-visited chain node in `done` (closest first), then the value `A`'s
own `get_hyperparameter` hook provides, if any. -/
def keyYields (net : HNetwork) (A : HNode) (done : List String) (k : String) :
    List Nat :=
  done.filterMap (fun b => ((setHpsOf net A.name).lookup b).bind
    (fun m => m.lookup k))
  ++ (A.selfHps.lookup k).toList

/-- Values yielded while processing one chain node: candidate keys in order
(key-major), and for each key the `keyYields` sequence. -/
def nodeTierYields (net : HNetwork) (A : HNode) (done : List String)
    (keys : List String) : List Nat :=
  keys.flatMap (keyYields net A done)

/-- The walk over `[self, parent, ..., root]` in `find_hyperparameters`:
each chain node is appended to the visited list `done` before its yields are
produced (so a node can `set_hyperparameter` for itself). -/
def hierarchyAux (net : HNetwork) (keys : List String) :
    List HNode → List String → List Nat
  | [], _ => []
  | A :: rest, done =>
    nodeTierYields net A (done ++ [A.name]) keys
      ++ hierarchyAux net keys rest (done ++ [A.name])

/-- Hierarchy tier of `find_hyperparameters` over the chain
`[this node, parent, ..., root]`. -/
def hierarchyTier (net : HNetwork) (chain : List HNode) (keys : List String) :
    List Nat :=
  hierarchyAux net keys chain []

/-- `RelativeNetwork.find_hyperparameters`: the full ordered sequence of
values the generator yields — override tier, then hierarchy tier, then the
caller default (if given), then the global default tier.  `chain` is
`[self._node] + ancestors`. -/
def find_hyperparameters (net : HNetwork) (chain : List HNode)
    (keys : List String) (default_value : Option Nat) : List Nat :=
  overrideTier net keys
    ++ hierarchyTier net chain keys
    ++ default_value.toList
    ++ globalDefaultTier net keys

/-- `RelativeNetwork.find_hyperparameter`: the first yielded value, or a
`MissingHyperparameter` error carrying the candidate key list if the
generator yields nothing. -/
def find_hyperparameter (net : HNetwork) (chain : List HNode)
    (keys : List String) (default_value : Option Nat) :
    Except (List String) Nat :=
  match find_hyperparameters net chain keys default_value with
  | v :: _ => .ok v
  | [] => .error keys

/-- `Network.__init__` hyperparameter handling: a `None` override map becomes
`{}`, a `None` default map becomes `{"batch_axis": 0}`; explicit maps are
taken as given. -/
def mkHNetwork (override_hyperparameters : Option (AList Nat))
    (default_hyperparameters : Option (AList Nat)) : HNetwork :=
  { override_hyperparameters := override_hyperparameters.getD []
    default_hyperparameters := default_hyperparameters.getD [("batch_axis", 0)]
    node_state := [] }

/-- A dependency edge of the computation DAG, with its keyed port pair. -/
structure DepEdge where
  from_name : String
  to_name : String
  from_key : String
  to_key : String
  deriving Repr, DecidableEq

/-- A node as seen by build orchestration: its name and the return value of
its `compute_output` hook (`none` is the required `None`; the hooks' state
effects belong to out-of-scope node implementations). -/
structure BNode where
  name : String
  computeRet : Option Unit
  deriving Repr, DecidableEq

/-- Errors raised by graph mutation (modelled from the spec: `graph.py` is
not in the sources; "add_dependency fails if the graph is frozen or if
adding the edge would create a cycle", "remove_dependency fails if
frozen"). -/
inductive GraphError where
  | frozenGraph
  | cycleDetected
  deriving Repr, DecidableEq

/-- Modelled from the spec: `TreeanoGraph` (`graph.py` is not in the
sources).  Dual structure over one node set: `arch_nodes` is the
architecture tree in root-to-leaves order
(`architectural_tree_nodes_root_to_leaves`), `comp_nodes` the computation
DAG in topological order (`computation_graph_nodes_topological`),
`dep_edges` the keyed dependency edges, `is_mutable` the freeze flag. -/
structure TGraph where
  is_mutable : Bool
  arch_nodes : List BNode
  comp_nodes : List BNode
  dep_edges : List DepEdge
  deriving Repr, DecidableEq

/-- Fuel-bounded reachability along dependency edges (a simple path uses at
most `edges.length` edges, so `edges.length` fuel decides reachability). -/
def reachable (edges : List DepEdge) : Nat → String → String → Bool
  | 0, a, b => a == b
  | fuel + 1, a, b =>
    a == b || (edges.filter (fun e => e.from_name == a)).any
      (fun e => reachable edges fuel e.to_name b)

/-- Modelled from the spec: `TreeanoGraph.add_dependency` (`graph.py` is not
in the sources) — "fails if the graph is frozen or if adding the edge would
create a cycle"; otherwise records the keyed edge. -/
def TGraph.add_dependency (g : TGraph) (from_name to_name from_key to_key :
    String) : Except GraphError TGraph :=
  if !g.is_mutable then .error .frozenGraph
  else if reachable g.dep_edges (g.dep_edges.length + 1) to_name from_name then
    .error .cycleDetected
  else .ok { g with dep_edges :=
    g.dep_edges ++ [⟨from_name, to_name, from_key, to_key⟩] }

/-- Modelled from the spec: `TreeanoGraph.remove_dependency` (`graph.py` is
not in the sources) — "fails if frozen"; otherwise drops the edge(s) between
the two named nodes. -/
def TGraph.remove_dependency (g : TGraph) (from_name to_name : String) :
    Except GraphError TGraph :=
  if !g.is_mutable then .error .frozenGraph
  else
    let keep := fun (e : DepEdge) =>
      !(e.from_name == from_name && e.to_name == to_name)
    .ok { g with dep_edges := g.dep_edges.filter keep }

/-- Modelled from the spec: `TreeanoGraph.input_edge_for_node` (`graph.py`
is not in the sources) — "returns the `(from_name, from_key)` supplying the
given input port, or none if unconnected". -/
def TGraph.input_edge_for_node (g : TGraph) (name to_key : String) :
    Option (String × String) :=
  (g.dep_edges.find? (fun e => e.to_name == name && e.to_key == to_key)).map
    (fun e => (e.from_name, e.from_key))

/-- `RelativeNetwork.forward_input_to` (current node `self_name`): look up
the incoming edge on port `previous_to_key`; if there is none, do nothing
when `ignore_no_input` and raise otherwise; if there is one, forward it to
`node_name` under `to_key` via `add_dependency`.  The `ValueError` of the
source is rendered as `Except.error none`, a graph error as
`Except.error (some e)`. -/
def forward_input_to (g : TGraph) (self_name node_name : String)
    (previous_to_key to_key : String) (ignore_no_input : Bool) :
    Except (Option GraphError) TGraph :=
  match g.input_edge_for_node self_name previous_to_key with
  | none =>
    if !ignore_no_input then .error none
    else .ok g
  | some (name_from, from_key) =>
    (g.add_dependency name_from node_name from_key to_key).mapError
      (fun e => some e)

/-- `AssertionError` outcomes of `RelativeNetwork` state operations. -/
inductive StateError where
  | duplicateVariable
  | missingOriginal
  deriving Repr, DecidableEq

/-- `RelativeNetwork.create_variable` acting on the current node's state:
asserts the local name is absent from both `current_variables` and
`original_variables`, creates `VariableWrapper("node:name", ...)`, stores it
in both maps, and returns it. -/
def create_variable (node_name : String) (st : NodeState) (name : String)
    (payload : Nat) : Except StateError (NodeState × NodeVar) :=
  if (st.current_variables.lookup name).isSome then .error .duplicateVariable
  else if (st.original_variables.lookup name).isSome then
    .error .duplicateVariable
  else
    let new_name := node_name ++ ":" ++ name
    let variable0 : NodeVar := ⟨new_name, payload⟩
    .ok ({ st with
            current_variables := setk st.current_variables name variable0
            original_variables := setk st.original_variables name variable0 },
         variable0)

/-- `RelativeNetwork.replace_variable` acting on the current node's state:
asserts the local name exists in `original_variables`, then overwrites only
`current_variables[name]` with the new variable and returns it. -/
def replace_variable (st : NodeState) (name : String) (new_variable : NodeVar) :
    Except StateError (NodeState × NodeVar) :=
  if (st.original_variables.lookup name).isSome then
    .ok ({ st with
            current_variables := setk st.current_variables name new_variable },
         new_variable)
  else .error .missingOriginal

/-- Observable events of one `build()` run, in execution order: the node
hooks invoked by each phase, and the freeze of the dependency graph. -/
inductive BuildEvent where
  | initLRD (name : String)
  | initState (name : String)
  | freeze
  | computeOutput (name : String)
  | mutateUpdates (name : String)
  deriving Repr, DecidableEq

/-- The fatal error of the output-computation phase: the `assert
output_res is None` sanity check after a node's `compute_output` hook. -/
inductive BuildError where
  | nonNoneComputeOutput (name : String)
  deriving Repr, DecidableEq

/-- `Network` build-relevant state: `graph` is `none` while unbuilt
(`is_built` is `hasattr(self, "graph")`), plus the node state store and the
update-delta accumulator (deltas keyed by variable name). -/
structure Network where
  graph : Option TGraph
  node_state : AList NodeState
  update_deltas : AList Nat
  deriving Repr, DecidableEq

/-- The output-computation loop of `build()`: for each node in topological
order, invoke its `compute_output` hook (the inputs passed to it and its
variable-creation effects belong to out-of-scope node implementations), then
assert that the hook returned `None`, aborting the build otherwise. -/
def computePhase : List BNode → Except BuildError Unit × List BuildEvent
  | [] => (.ok (), [])
  | n :: rest =>
    match n.computeRet with
    | some _ => (.error (.nonNoneComputeOutput n.name), [.computeOutput n.name])
    | none =>
      ((computePhase rest).1,
       .computeOutput n.name :: (computePhase rest).2)

/-- `Network.build()`.  If already built, return immediately.  Otherwise:
construct the graph (`gr`, the result of `TreeanoGraph(root_node)`, whose
construction lives in the out-of-src `graph.py`), allocate empty node state
for every architecture node, run `init_long_range_dependencies` then
`init_state` root-to-leaves, freeze the graph, run the output-computation
loop, then `mutate_update_deltas` root-to-leaves.  Returns the resulting
network (or the fatal error) together with the event trace. -/
def build (gr : TGraph) (net : Network) :
    Except BuildError Network × List BuildEvent :=
  if net.graph.isSome then (.ok net, [])
  else
    let states := gr.arch_nodes.map (fun n => (n.name, emptyNodeState))
    let ev1 := gr.arch_nodes.map (fun n => BuildEvent.initLRD n.name)
    let ev2 := gr.arch_nodes.map (fun n => BuildEvent.initState n.name)
    let frozen : TGraph := { gr with is_mutable := false }
    let cp := computePhase frozen.comp_nodes
    match cp.1 with
    | .error e => (.error e, ev1 ++ ev2 ++ BuildEvent.freeze :: cp.2)
    | .ok _ =>
      let ev4 := gr.arch_nodes.map (fun n => BuildEvent.mutateUpdates n.name)
      (.ok { net with graph := some frozen, node_state := states },
       ev1 ++ ev2 ++ BuildEvent.freeze :: (cp.2 ++ ev4))

/-! ### Helper lemmas -/

theorem lookup_setk_self {V : Type} (m : AList V) (k : String) (v : V) :
    (setk m k v).lookup k = some v := by
  induction m with
  | nil => simp [setk, List.lookup]
  | cons hd tl ih =>
    obtain ⟨k0, v0⟩ := hd
    simp only [setk]
    by_cases h : k0 = k
    · simp [h, List.lookup]
    · have hbe : (k == k0) = false :=
        beq_eq_false_iff_ne.mpr fun e => h e.symm
      simp [h, List.lookup, hbe, ih]

theorem lookup_setk_ne {V : Type} (m : AList V) (k k2 : String) (v : V)
    (h : k2 ≠ k) : (setk m k v).lookup k2 = m.lookup k2 := by
  induction m with
  | nil =>
    have hbe : (k2 == k) = false := beq_eq_false_iff_ne.mpr h
    simp [setk, List.lookup, hbe]
  | cons hd tl ih =>
    obtain ⟨k0, v0⟩ := hd
    simp only [setk]
    by_cases h0 : k0 = k
    · have hbe : (k2 == k0) = false :=
        beq_eq_false_iff_ne.mpr (h0 ▸ h)
      have hbk : (k2 == k) = false := beq_eq_false_iff_ne.mpr h
      simp [h0, List.lookup, hbe, hbk]
    · by_cases h2 : k2 = k0
      · subst h2
        simp [h0, List.lookup]
      · have hbe : (k2 == k0) = false := beq_eq_false_iff_ne.mpr h2
        simp [h0, List.lookup, hbe, ih]

theorem hierarchyTier_cons (net : HNetwork) (keys : List String) (A : HNode)
    (rest : List HNode) :
    hierarchyTier net (A :: rest) keys =
      nodeTierYields net A [A.name] keys
        ++ hierarchyAux net keys rest [A.name] := by
  simp [hierarchyTier, hierarchyAux]

theorem nodeTierYields_cons (net : HNetwork) (A : HNode) (done : List String)
    (k : String) (ks : List String) :
    nodeTierYields net A done (k :: ks) =
      keyYields net A done k ++ nodeTierYields net A done ks := by
  simp [nodeTierYields]

/-! ### Claims about hyperparameter resolution -/

/-- C1: `find_hyperparameter` is a priority-ordered search over the four
tiers — override map (candidate-key order), hierarchy chain, caller default,
global default map (candidate-key order) — returning the first value of the
earliest nonempty tier; an override entry beats any hierarchy value, a
hierarchy match (even for a later candidate key) beats the caller default,
and the caller default beats the global default map. -/
theorem find_hyperparameter_tier_order (net : HNetwork) (chain : List HNode)
    (keys : List String) (d : Option Nat) :
    (∀ v rest, overrideTier net keys = v :: rest →
      find_hyperparameter net chain keys d = .ok v) ∧
    (overrideTier net keys = [] →
      ∀ v rest, hierarchyTier net chain keys = v :: rest →
        find_hyperparameter net chain keys d = .ok v) ∧
    (overrideTier net keys = [] → hierarchyTier net chain keys = [] →
      ∀ dv, d = some dv → find_hyperparameter net chain keys d = .ok dv) ∧
    (overrideTier net keys = [] → hierarchyTier net chain keys = [] →
      d = none → ∀ v rest, globalDefaultTier net keys = v :: rest →
        find_hyperparameter net chain keys d = .ok v) := by
  refine ⟨?_, ?_, ?_, ?_⟩
  · intro v rest h
    simp [find_hyperparameter, find_hyperparameters, h]
  · intro hO v rest h
    simp [find_hyperparameter, find_hyperparameters, hO, h]
  · intro hO hH dv hd
    simp [find_hyperparameter, find_hyperparameters, hO, hH, hd]
  · intro hO hH hd v rest h
    simp [find_hyperparameter, find_hyperparameters, hO, hH, hd, h]

/-- C1 witness. -/
theorem find_hyperparameter_tier_order_witness :
    find_hyperparameter
      ⟨[("m", 9)], [("batch_axis", 0)], []⟩ [⟨"s", [("lr", 7)]⟩]
      ["m", "lr"] (some 42) = .ok 9 :=
  (find_hyperparameter_tier_order
    ⟨[("m", 9)], [("batch_axis", 0)], []⟩ [⟨"s", [("lr", 7)]⟩]
    ["m", "lr"] (some 42)).1 9 [] (by decide)

/-- C4: with no caller default, if every tier yields nothing then
`find_hyperparameter` fails with a `MissingHyperparameter` error carrying
exactly the candidate key list; if any tier yields a value, no error is
raised. -/
theorem find_hyperparameter_missing (net : HNetwork) (chain : List HNode)
    (keys : List String) :
    (overrideTier net keys = [] → hierarchyTier net chain keys = [] →
      globalDefaultTier net keys = [] →
      find_hyperparameter net chain keys none = .error keys) ∧
    (∀ d, find_hyperparameters net chain keys d ≠ [] →
      ∃ v, find_hyperparameter net chain keys d = .ok v) := by
  constructor
  · intro hO hH hG
    simp [find_hyperparameter, find_hyperparameters, hO, hH, hG]
  · intro d hne
    match h : find_hyperparameters net chain keys d with
    | [] => exact absurd h hne
    | v :: rest => exact ⟨v, by simp [find_hyperparameter, h]⟩

/-- C4 witness. -/
theorem find_hyperparameter_missing_witness :
    find_hyperparameter ⟨[], [], []⟩ [⟨"s", []⟩] ["foo", "bar"] none
      = .error ["foo", "bar"] :=
  (find_hyperparameter_missing ⟨[], [], []⟩ [⟨"s", []⟩] ["foo", "bar"]).1
    (by decide) (by decide) (by decide)

theorem hierarchyAux_skip (net : HNetwork) (keys : List String) :
    ∀ (front tail : List HNode) (done : List String),
    (∀ pre B post, front = pre ++ B :: post →
      nodeTierYields net B (done ++ pre.map HNode.name ++ [B.name]) keys
        = []) →
    hierarchyAux net keys (front ++ tail) done
      = hierarchyAux net keys tail (done ++ front.map HNode.name) := by
  intro front
  induction front with
  | nil =>
    intro tail done h
    simp
  | cons B rest ih =>
    intro tail done h
    have hB : nodeTierYields net B (done ++ [B.name]) keys = [] := by
      have hh := h [] B rest rfl
      simpa using hh
    simp only [List.cons_append, hierarchyAux, hB, List.nil_append,
      List.append_eq]
    rw [ih tail (done ++ [B.name]) ?_]
    · simp
    · intro pre C post hpre
      have hh := h (B :: pre) C post (by rw [hpre]; rfl)
      simpa [List.append_assoc] using hh

/-- C8: inside the hierarchy tier, walked over the chain
`[this node, parent, ..., root]`, a closer chain node's yields precede (and
so beat) every farther chain node's yields regardless of candidate-key
order: for any chain `front ++ A :: rest`, if every node of `front` (with
its own visited prefix) yields nothing and `A` yields a value, that value is
the tier's first, whatever the farther nodes in `rest` push.  And within one
chain node the scan is key-major — a value for an earlier candidate key
beats a value for a later one, no matter which visited-prefix node either
value targets. -/
theorem hierarchy_tier_precedence (net : HNetwork) :
    (∀ (front : List HNode) (A : HNode) (rest : List HNode)
      (keys : List String) (v : Nat) (tail : List Nat),
      (∀ pre B post, front = pre ++ B :: post →
        nodeTierYields net B (pre.map HNode.name ++ [B.name]) keys = []) →
      nodeTierYields net A (front.map HNode.name ++ [A.name]) keys
        = v :: tail →
      (hierarchyTier net (front ++ A :: rest) keys).head? = some v) ∧
    (∀ (A : HNode) (done : List String) (k1 : String) (ks : List String)
      (v : Nat) (tail : List Nat),
      keyYields net A done k1 = v :: tail →
      (nodeTierYields net A done (k1 :: ks)).head? = some v) := by
  constructor
  · intro front A rest keys v tail hfront hA
    unfold hierarchyTier
    rw [hierarchyAux_skip net keys front (A :: rest) [] ?_]
    · simp only [List.nil_append, hierarchyAux, hA]
      simp
    · intro pre B post hpre
      have hh := hfront pre B post hpre
      simpa using hh
  · intro A done k1 ks v tail h
    rw [nodeTierYields_cons, h]
    simp

/-- C8 witness, the spec's proximity scenario on the chain
`[self, parent, grandparent]`: both ancestors push a value for key `"lr"`
to the querying node `s` — the parent (closer) pushes `1`, the grandparent
(farther) pushes `2` — and resolution's hierarchy tier starts with the
parent's `1`. -/
theorem hierarchy_tier_precedence_witness :
    (hierarchyTier
      ⟨[], [],
        [("p", { emptyNodeState with
          set_hyperparameters := [("s", [("lr", 1)])] }),
         ("gp", { emptyNodeState with
          set_hyperparameters := [("s", [("lr", 2)])] })]⟩
      [⟨"s", []⟩, ⟨"p", []⟩, ⟨"gp", []⟩] ["lr"]).head? = some 1 :=
  (hierarchy_tier_precedence
    ⟨[], [],
      [("p", { emptyNodeState with
        set_hyperparameters := [("s", [("lr", 1)])] }),
       ("gp", { emptyNodeState with
        set_hyperparameters := [("s", [("lr", 2)])] })]⟩).1
    [⟨"s", []⟩] ⟨"p", []⟩ [⟨"gp", []⟩] ["lr"] 1 []
    (by
      intro pre B post h
      cases pre with
      | nil =>
        simp only [List.nil_append, List.cons.injEq] at h
        obtain ⟨hB, hpost⟩ := h
        subst hB
        decide
      | cons x xs => simp at h)
    (by decide)

/-- C10: constructing a network with `default_hyperparameters=None` yields
the global default map `{"batch_axis": 0}`; on such a network
`find_hyperparameter(["batch_axis"])` never raises, and returns `0` whenever
the override map, the hierarchy tier and the caller default all supply
nothing; an explicitly passed default map is stored verbatim, with no
implicit `batch_axis` entry added. -/
theorem batch_axis_default (o : Option (AList Nat)) (net : HNetwork)
    (chain : List HNode) :
    ((mkHNetwork o none).default_hyperparameters = [("batch_axis", 0)]) ∧
    (net.default_hyperparameters
        = (mkHNetwork o none).default_hyperparameters →
      (∀ dv : Option Nat, ∃ v,
        find_hyperparameter net chain ["batch_axis"] dv = .ok v) ∧
      (net.override_hyperparameters.lookup "batch_axis" = none →
        hierarchyTier net chain ["batch_axis"] = [] →
        find_hyperparameter net chain ["batch_axis"] none = .ok 0)) ∧
    (∀ d0 : AList Nat,
      (mkHNetwork o (some d0)).default_hyperparameters = d0) := by
  refine ⟨rfl, ?_, fun d0 => rfl⟩
  intro hdef
  have hG : globalDefaultTier net ["batch_axis"] = [0] := by
    simp [globalDefaultTier, hdef, mkHNetwork, List.lookup]
  constructor
  · intro dv
    match h : find_hyperparameters net chain ["batch_axis"] dv with
    | v :: rest => exact ⟨v, by simp [find_hyperparameter, h]⟩
    | [] =>
      exfalso
      rw [find_hyperparameters, hG] at h
      simp at h
  · intro hO hH
    have hOv : overrideTier net ["batch_axis"] = [] := by
      simp [overrideTier, hO]
    simp [find_hyperparameter, find_hyperparameters, hOv, hH, hG]

/-- C10 witness. -/
theorem batch_axis_default_witness :
    find_hyperparameter ⟨[("m", 9)], [("batch_axis", 0)], []⟩ [⟨"s", []⟩]
      ["batch_axis"] none = .ok 0 :=
  ((batch_axis_default (some [("m", 9)])
      ⟨[("m", 9)], [("batch_axis", 0)], []⟩ [⟨"s", []⟩]).2.1
    (by decide)).2 (by decide) (by decide)

/-! ### Claims about the node state store -/

/-- C5: `create_variable` fails when the local name is already bound in
`current_variables` or `original_variables`; on success it stores the one
newly created variable under the name in both maps and returns it, so a
second creation under the same local name always fails. -/
theorem create_variable_unique (nn : String) (st : NodeState) (name : String)
    (p : Nat) :
    ((st.current_variables.lookup name).isSome
        ∨ (st.original_variables.lookup name).isSome →
      create_variable nn st name p = .error .duplicateVariable) ∧
    (st.current_variables.lookup name = none →
      st.original_variables.lookup name = none →
      ∃ st2 v, create_variable nn st name p = .ok (st2, v) ∧
        st2.current_variables.lookup name = some v ∧
        st2.original_variables.lookup name = some v) ∧
    (∀ st2 v p2, create_variable nn st name p = .ok (st2, v) →
      create_variable nn st2 name p2 = .error .duplicateVariable) := by
  refine ⟨?_, ?_, ?_⟩
  · intro h
    rcases h with h | h
    · simp [create_variable, h]
    · by_cases hc : (st.current_variables.lookup name).isSome
      · simp [create_variable, hc]
      · simp [create_variable, hc, h]
  · intro h1 h2
    refine ⟨{ st with
        current_variables :=
          setk st.current_variables name ⟨nn ++ ":" ++ name, p⟩
        original_variables :=
          setk st.original_variables name ⟨nn ++ ":" ++ name, p⟩ },
      ⟨nn ++ ":" ++ name, p⟩, ?_, ?_, ?_⟩
    · simp [create_variable, h1, h2]
    · exact lookup_setk_self _ _ _
    · exact lookup_setk_self _ _ _
  · intro st2 v p2 h
    by_cases h1 : (st.current_variables.lookup name).isSome
    · simp [create_variable, h1] at h
    · by_cases h2 : (st.original_variables.lookup name).isSome
      · simp [create_variable, h1, h2] at h
      · simp only [create_variable, h1, h2] at h
        simp only [Bool.false_eq_true, if_false, Except.ok.injEq,
          Prod.mk.injEq] at h
        obtain ⟨hst, hv⟩ := h
        rw [← hst]
        simp [create_variable, lookup_setk_self]

/-- C5 witness. -/
theorem create_variable_unique_witness :
    ∃ st2 v, create_variable "node" emptyNodeState "w" 5 = .ok (st2, v) ∧
      st2.current_variables.lookup "w" = some v ∧
      st2.original_variables.lookup "w" = some v :=
  (create_variable_unique "node" emptyNodeState "w" 5).2.1
    (by decide) (by decide)

/-- C6: `replace_variable` fails unless the local name already exists in
`original_variables`; on success it overwrites only
`current_variables[name]` with the new variable — `original_variables` is
untouched (the audit trail keeps the first-created variable), as are
`additional_data`, `set_hyperparameters`, and every other binding of
`current_variables`. -/
theorem replace_variable_audit (st : NodeState) (name : String)
    (nv : NodeVar) :
    (st.original_variables.lookup name = none →
      replace_variable st name nv = .error .missingOriginal) ∧
    ((st.original_variables.lookup name).isSome →
      ∃ st2, replace_variable st name nv = .ok (st2, nv) ∧
        st2.current_variables.lookup name = some nv ∧
        st2.original_variables = st.original_variables ∧
        st2.additional_data = st.additional_data ∧
        st2.set_hyperparameters = st.set_hyperparameters ∧
        ∀ k, k ≠ name →
          st2.current_variables.lookup k = st.current_variables.lookup k) := by
  constructor
  · intro h
    simp [replace_variable, h]
  · intro h
    refine ⟨{ st with
        current_variables := setk st.current_variables name nv },
      ?_, ?_, rfl, rfl, rfl, ?_⟩
    · simp [replace_variable, h]
    · exact lookup_setk_self _ _ _
    · exact fun k hk => lookup_setk_ne _ _ _ _ hk

/-- C6 witness: replacing `"w"` keeps the original map pointing at the
first-created variable while the current map holds the replacement. -/
theorem replace_variable_audit_witness :
    ∃ st2, replace_variable
        { emptyNodeState with
          current_variables := [("w", ⟨"n:w", 1⟩)]
          original_variables := [("w", ⟨"n:w", 1⟩)] } "w" ⟨"n:w", 2⟩
        = .ok (st2, ⟨"n:w", 2⟩) ∧
      st2.current_variables.lookup "w" = some ⟨"n:w", 2⟩ ∧
      st2.original_variables
        = [("w", (⟨"n:w", 1⟩ : NodeVar))] ∧
      st2.additional_data = [] ∧
      st2.set_hyperparameters = [] ∧
      ∀ k, k ≠ "w" →
        st2.current_variables.lookup k
          = ([("w", (⟨"n:w", 1⟩ : NodeVar))] : AList NodeVar).lookup k :=
  (replace_variable_audit
    { emptyNodeState with
      current_variables := [("w", ⟨"n:w", 1⟩)]
      original_variables := [("w", ⟨"n:w", 1⟩)] } "w" ⟨"n:w", 2⟩).2
    (by decide)

/-! ### Claims about dependency forwarding -/

theorem add_dependency_ok_edges (g g2 : TGraph) (a b c d : String)
    (h : g.add_dependency a b c d = .ok g2) :
    g2.dep_edges = g.dep_edges ++ [⟨a, b, c, d⟩] := by
  unfold TGraph.add_dependency at h
  split_ifs at h
  cases h
  rfl

/-- C7: when the current node's input port `previous_to_key` has no incoming
edge, `forward_input_to` is a no-op if `ignore_no_input` is true and raises
if it is false; when the incoming edge `(nf, fk)` exists, the call is
exactly `add_dependency nf node_name fk to_key`, so on success the new
dependency edge from that source is appended. -/
theorem forward_input_to_missing_input (g : TGraph) (sn nn pk tk : String) :
    (g.input_edge_for_node sn pk = none →
      forward_input_to g sn nn pk tk true = .ok g ∧
      forward_input_to g sn nn pk tk false = .error none) ∧
    (∀ nf fk, g.input_edge_for_node sn pk = some (nf, fk) → ∀ ig,
      (forward_input_to g sn nn pk tk ig
        = (g.add_dependency nf nn fk tk).mapError some) ∧
      ∀ g2, forward_input_to g sn nn pk tk ig = .ok g2 →
        g2.dep_edges = g.dep_edges ++ [⟨nf, nn, fk, tk⟩]) := by
  constructor
  · intro h
    constructor <;> simp [forward_input_to, h]
  · intro nf fk h ig
    constructor
    · simp [forward_input_to, h]
    · intro g2 hg2
      simp only [forward_input_to, h] at hg2
      cases hadd : g.add_dependency nf nn fk tk with
      | error e => rw [hadd] at hg2; simp [Except.mapError] at hg2
      | ok g3 =>
        rw [hadd] at hg2
        simp only [Except.mapError, Except.ok.injEq] at hg2
        rw [← hg2]
        exact add_dependency_ok_edges g g3 nf nn fk tk hadd

/-- C7 witness: on a graph with edge `r → c`, forwarding from a node `q`
with no input is a no-op, and forwarding `c`'s input to `d` appends the
edge `r → d`. -/
theorem forward_input_to_missing_input_witness :
    (forward_input_to
        ⟨true, [], [], [⟨"r", "c", "default", "default"⟩]⟩
        "q" "d" "default" "in" true
      = .ok ⟨true, [], [], [⟨"r", "c", "default", "default"⟩]⟩) ∧
    (forward_input_to
        ⟨true, [], [], [⟨"r", "c", "default", "default"⟩]⟩
        "q" "d" "default" "in" false = .error none) :=
  (forward_input_to_missing_input
    ⟨true, [], [], [⟨"r", "c", "default", "default"⟩]⟩
    "q" "d" "default" "in").1 (by decide)

/-! ### Claims about build orchestration -/

theorem computePhase_trace_events (ns : List BNode) :
    ∀ e ∈ (computePhase ns).2, ∃ n, e = BuildEvent.computeOutput n := by
  induction ns with
  | nil => simp [computePhase]
  | cons n rest ih =>
    cases hr : n.computeRet with
    | some u =>
      simp only [computePhase, hr, List.mem_singleton]
      exact fun e he => ⟨n.name, he⟩
    | none =>
      simp only [computePhase, hr, List.mem_cons]
      rintro e (rfl | he)
      · exact ⟨n.name, rfl⟩
      · exact ih e he

theorem computePhase_first_bad (pre : List BNode) (bad : BNode)
    (post : List BNode) (hpre : ∀ n ∈ pre, n.computeRet = none)
    (u : Unit) (hbad : bad.computeRet = some u) :
    computePhase (pre ++ bad :: post)
      = (.error (.nonNoneComputeOutput bad.name),
         pre.map (fun n => BuildEvent.computeOutput n.name)
           ++ [BuildEvent.computeOutput bad.name]) := by
  induction pre with
  | nil => simp [computePhase, hbad]
  | cons n rest ih =>
    have hn : n.computeRet = none := hpre n (by simp)
    have hrest : ∀ m ∈ rest, m.computeRet = none :=
      fun m hm => hpre m (by simp [hm])
    simp [computePhase, hn, ih hrest]

/-- C2: `build()` is idempotent — once a graph exists (`is_built`), a second
call returns at once, leaving the whole network (graph, node state store,
update deltas) unchanged and invoking no node hook (empty event trace). -/
theorem build_idempotent (gr : TGraph) (net : Network)
    (h : net.graph.isSome = true) :
    build gr net = (.ok net, []) := by
  simp [build, h]

/-- C2 witness. -/
theorem build_idempotent_witness :
    build ⟨true, [⟨"r", none⟩], [⟨"r", none⟩], []⟩
        ⟨some ⟨false, [⟨"r", none⟩], [⟨"r", none⟩], []⟩,
         [("r", emptyNodeState)], []⟩
      = (.ok ⟨some ⟨false, [⟨"r", none⟩], [⟨"r", none⟩], []⟩,
          [("r", emptyNodeState)], []⟩, []) :=
  build_idempotent ⟨true, [⟨"r", none⟩], [⟨"r", none⟩], []⟩
    ⟨some ⟨false, [⟨"r", none⟩], [⟨"r", none⟩], []⟩,
     [("r", emptyNodeState)], []⟩ rfl

/-- C3: in a fresh build the trace splits around a unique freeze event —
everything before it is an `init_long_range_dependencies` or `init_state`
hook, everything after it a `compute_output` or `mutate_update_deltas` hook
(so the graph is frozen strictly after all init hooks and strictly before
any output computation); on a frozen graph every attempted dependency-edge
add or remove fails; and a successful build hands back a frozen graph, so
no `compute_output` observes a mutable one. -/
theorem freeze_before_compute (gr : TGraph) (net : Network)
    (h : net.graph = none) :
    (∃ pre post, (build gr net).2 = pre ++ BuildEvent.freeze :: post ∧
      (∀ e ∈ pre, (∃ n, e = BuildEvent.initLRD n)
        ∨ (∃ n, e = BuildEvent.initState n)) ∧
      (∀ e ∈ post, (∃ n, e = BuildEvent.computeOutput n)
        ∨ (∃ n, e = BuildEvent.mutateUpdates n)) ∧
      BuildEvent.freeze ∉ pre ∧ BuildEvent.freeze ∉ post) ∧
    (∀ g : TGraph, g.is_mutable = false →
      (∀ a b c d, g.add_dependency a b c d = .error .frozenGraph) ∧
      (∀ a b, g.remove_dependency a b = .error .frozenGraph)) ∧
    (∀ net2, (build gr net).1 = .ok net2 →
      ∃ g2, net2.graph = some g2 ∧ g2.is_mutable = false) := by
  have hpre1 : ∀ e ∈ gr.arch_nodes.map (fun n => BuildEvent.initLRD n.name)
      ++ gr.arch_nodes.map (fun n => BuildEvent.initState n.name),
      (∃ n, e = BuildEvent.initLRD n) ∨ (∃ n, e = BuildEvent.initState n) := by
    intro e he
    rcases List.mem_append.mp he with he | he <;>
      obtain ⟨n, _, rfl⟩ := List.mem_map.mp he
    · exact Or.inl ⟨n.name, rfl⟩
    · exact Or.inr ⟨n.name, rfl⟩
  refine ⟨?_, ?_, ?_⟩
  · cases hc : (computePhase gr.comp_nodes).1 with
    | error e =>
      refine ⟨gr.arch_nodes.map (fun n => BuildEvent.initLRD n.name)
          ++ gr.arch_nodes.map (fun n => BuildEvent.initState n.name),
        (computePhase gr.comp_nodes).2,
        by simp [build, h, hc], hpre1, ?_, ?_, ?_⟩
      · intro e2 he2
        exact Or.inl (computePhase_trace_events _ e2 he2)
      · intro hf
        rcases hpre1 _ hf with ⟨n, hn⟩ | ⟨n, hn⟩ <;> cases hn
      · intro hf
        obtain ⟨n, hn⟩ := computePhase_trace_events _ _ hf
        cases hn
    | ok u =>
      refine ⟨gr.arch_nodes.map (fun n => BuildEvent.initLRD n.name)
          ++ gr.arch_nodes.map (fun n => BuildEvent.initState n.name),
        (computePhase gr.comp_nodes).2
          ++ gr.arch_nodes.map (fun n => BuildEvent.mutateUpdates n.name),
        by simp [build, h, hc], hpre1, ?_, ?_, ?_⟩
      · intro e2 he2
        rcases List.mem_append.mp he2 with he2 | he2
        · exact Or.inl (computePhase_trace_events _ e2 he2)
        · obtain ⟨n, _, rfl⟩ := List.mem_map.mp he2
          exact Or.inr ⟨n.name, rfl⟩
      · intro hf
        rcases hpre1 _ hf with ⟨n, hn⟩ | ⟨n, hn⟩ <;> cases hn
      · intro hf
        rcases List.mem_append.mp hf with hf | hf
        · obtain ⟨n, hn⟩ := computePhase_trace_events _ _ hf
          cases hn
        · obtain ⟨n, _, hn⟩ := List.mem_map.mp hf
          cases hn
  · intro g hg
    constructor
    · intro a b c d
      simp [TGraph.add_dependency, hg]
    · intro a b
      simp [TGraph.remove_dependency, hg]
  · intro net2 h2
    cases hc : (computePhase gr.comp_nodes).1 with
    | error e => simp [build, h, hc] at h2
    | ok u =>
      simp only [build, h, Option.isSome_none, Bool.false_eq_true, if_false,
        hc, Except.ok.injEq] at h2
      exact ⟨{ gr with is_mutable := false }, by rw [← h2], rfl⟩

/-- C3 witness. -/
theorem freeze_before_compute_witness :
    ∃ pre post,
      (build ⟨true, [⟨"r", none⟩], [⟨"r", none⟩], []⟩ ⟨none, [], []⟩).2
        = pre ++ BuildEvent.freeze :: post ∧
      (∀ e ∈ pre, (∃ n, e = BuildEvent.initLRD n)
        ∨ (∃ n, e = BuildEvent.initState n)) ∧
      (∀ e ∈ post, (∃ n, e = BuildEvent.computeOutput n)
        ∨ (∃ n, e = BuildEvent.mutateUpdates n)) ∧
      BuildEvent.freeze ∉ pre ∧ BuildEvent.freeze ∉ post :=
  (freeze_before_compute ⟨true, [⟨"r", none⟩], [⟨"r", none⟩], []⟩
    ⟨none, [], []⟩ rfl).1

/-- C9: if any node's `compute_output` hook returns a non-`None` value,
`build()` on an unbuilt network fails with the assertion error naming that
node, immediately: the trace stops at the offending node's
`compute_output` event — no later node's hook runs and no update phase
happens. -/
theorem compute_output_return_check (gr : TGraph) (net : Network)
    (h : net.graph = none) (pre : List BNode) (bad : BNode)
    (post : List BNode) (hcomp : gr.comp_nodes = pre ++ bad :: post)
    (hpre : ∀ n ∈ pre, n.computeRet = none) (u : Unit)
    (hbad : bad.computeRet = some u) :
    (build gr net).1 = .error (.nonNoneComputeOutput bad.name) ∧
    (build gr net).2
      = gr.arch_nodes.map (fun n => BuildEvent.initLRD n.name)
        ++ gr.arch_nodes.map (fun n => BuildEvent.initState n.name)
        ++ BuildEvent.freeze
          :: (pre.map (fun n => BuildEvent.computeOutput n.name)
            ++ [BuildEvent.computeOutput bad.name]) := by
  have hcp := computePhase_first_bad pre bad post hpre u hbad
  constructor <;> simp [build, h, hcomp, hcp]

/-- C9 witness. -/
theorem compute_output_return_check_witness :
    (build ⟨true, [⟨"r", some ()⟩], [⟨"r", some ()⟩], []⟩
      ⟨none, [], []⟩).1 = .error (.nonNoneComputeOutput "r") ∧
    (build ⟨true, [⟨"r", some ()⟩], [⟨"r", some ()⟩], []⟩
      ⟨none, [], []⟩).2
      = [BuildEvent.initLRD "r", BuildEvent.initState "r",
         BuildEvent.freeze, BuildEvent.computeOutput "r"] :=
  compute_output_return_check
    ⟨true, [⟨"r", some ()⟩], [⟨"r", some ()⟩], []⟩ ⟨none, [], []⟩ rfl
    [] ⟨"r", some ()⟩ [] rfl (by simp) () rfl

end Treeano
